import Mathlib

/-!
Verification of the discord-gemini bot (gemini.go) against its specification.

The repository contains three revisions of the same file. Two of them
("accumulating" variants, modelled by chatAcc) scan all parts of the first
response for function calls via handleFunctionCalls; the third
("first-part" variant, modelled by chatFirst) inspects only the first
content part. The Lean definitions below are a shallow embedding of the Go
code: the external model and the HTTP fetcher are oracles supplied through
an environment, and each Chat variant returns its outcome together with an
observable trace (number of model calls, URLs fetched by HTTP GET, and the
parts sent in the second model call).
-/

/-- String constants of the source. -/
def toolName : String := "fetchWebsiteContent"

/-- The misspelled FunctionResponse name used by the accumulating variants
(gemini.go, handleFunctionCalls). -/
def typoToolName : String := "fetchWebisiteContent"

/-- Key of the single tool argument. -/
def urlKey : String := "url"

/-- The empty reply string returned alongside errors. -/
def noReply : String := ""

/-- A Go value stored in a map of type map of string to any; the code only ever
type-asserts such a value to string, so the model distinguishes strings from
everything else. -/
inductive GoVal where
  | str (s : String)
  | nonString
deriving DecidableEq

/-- A genai.GPart: plain text, a function call (name plus argument map),
a function response (name plus the content payload), or any other part kind
(blob and the like), which the code never constructs and only hits through
default branches. -/
inductive GPart where
  | text (s : String)
  | functionCall (name : String) (args : List (String × GoVal))
  | functionResponse (name : String) (content : String)
  | blob
deriving DecidableEq

/-- Error values produced by the Go code, one constructor per distinct
error construction site. -/
inductive GoErr where
  | emptyResponse
  | argumentType
  | fetchFail (msg : String)
  | unknownTool (name : String)
  | secondNotText
  | firstCallFail (msg : String)
  | secondCallFail (msg : String)
deriving DecidableEq

/-- Result of one Chat exchange: either the pair returned by the Go
function (reply string and possibly-nil error), or a runtime panic
(slice index out of range). -/
inductive Outcome where
  | ret (reply : String) (err : Option GoErr)
  | goPanic
deriving DecidableEq

/-- Observable side effects of one Chat exchange. -/
structure Trace where
  modelCalls : Nat
  fetches : List String
  secondSent : List GPart
deriving DecidableEq

/-- The oracle environment: the candidates of the two possible model
responses (each candidate is its list of content parts; an Except.error
models a transport failure of SendMessage) and the HTTP fetcher. -/
structure Env where
  resp1 : Except String (List (List GPart))
  resp2 : Except String (List (List GPart))
  fetch : String → Except String String

/-- fetchWebsiteContentFunc (gemini.go): extracts the url argument via a
string type assertion and performs the HTTP GET. Returns the body (or the
error) together with the list of GETs actually issued. -/
def fetchWebsiteContentFunc (fetch : String → Except String String)
    (args : List (String × GoVal)) : Except GoErr String × List String :=
  match List.lookup urlKey args with
  | some (GoVal.str url) =>
    match fetch url with
    | Except.ok body => (Except.ok body, [url])
    | Except.error e => (Except.error (GoErr.fetchFail e), [url])
  | _ => (Except.error GoErr.argumentType, [])

/-- Whether a part is a genai.FunctionCall. -/
def isFunctionCall : GPart → Bool
  | GPart.functionCall _ _ => true
  | _ => false

/-- The loop of handleFunctionCalls over the collected function-call
parts: fetchWebsiteContent calls are executed (stopping at the first
error) and their results wrapped as FunctionResponse parts under the
misspelled name; calls with any other name fall through the switch and
are silently skipped. -/
def runCalls (fetch : String → Except String String) :
    List GPart → Except GoErr (List GPart) × List String
  | [] => (Except.ok [], [])
  | GPart.functionCall name args :: rest =>
    if name = toolName then
      match fetchWebsiteContentFunc fetch args with
      | (Except.ok data, gs) =>
        match runCalls fetch rest with
        | (Except.ok frs, gs2) =>
          (Except.ok (GPart.functionResponse typoToolName data :: frs), gs ++ gs2)
        | (Except.error e, gs2) => (Except.error e, gs ++ gs2)
      | (Except.error e, gs) => (Except.error e, gs)
    else runCalls fetch rest
  | _ :: rest => runCalls fetch rest

/-- handleFunctionCalls (accumulating variants): first collects the
function-call parts, then runs them. -/
def handleFunctionCalls (fetch : String → Except String String)
    (parts : List GPart) : Except GoErr (List GPart) × List String :=
  runCalls fetch (List.filter isFunctionCall parts)

/-- Chat, accumulating variants (gemini.go revisions one and two; they
differ only in tracing and constants). Note that the Go code evaluates
resp.Candidates[0].Content.Parts before the emptiness check, so a
response with zero candidates panics; and that when handleFunctionCalls
returns no responses and the first part is not text, the function
returns the empty string with a nil error. -/
def chatAcc (env : Env) : Outcome × Trace :=
  match env.resp1 with
  | Except.error e => (Outcome.ret noReply (some (GoErr.firstCallFail e)), ⟨1, [], []⟩)
  | Except.ok cands =>
    match cands with
    | [] => (Outcome.goPanic, ⟨1, [], []⟩)
    | parts :: _ =>
      match parts with
      | [] => (Outcome.ret noReply (some GoErr.emptyResponse), ⟨1, [], []⟩)
      | p0 :: ps =>
        match handleFunctionCalls env.fetch (p0 :: ps) with
        | (Except.error e, gs) => (Outcome.ret noReply (some e), ⟨1, gs, []⟩)
        | (Except.ok frs, gs) =>
          match frs with
          | [] =>
            match p0 with
            | GPart.text s => (Outcome.ret s none, ⟨1, gs, []⟩)
            | _ => (Outcome.ret noReply none, ⟨1, gs, []⟩)
          | fr0 :: frRest =>
            match env.resp2 with
            | Except.error e =>
              (Outcome.ret noReply (some (GoErr.secondCallFail e)), ⟨2, gs, fr0 :: frRest⟩)
            | Except.ok cands2 =>
              match cands2 with
              | [] => (Outcome.goPanic, ⟨2, gs, fr0 :: frRest⟩)
              | parts2 :: _ =>
                match parts2 with
                | [] => (Outcome.goPanic, ⟨2, gs, fr0 :: frRest⟩)
                | p2 :: _ =>
                  match p2 with
                  | GPart.text t => (Outcome.ret t none, ⟨2, gs, fr0 :: frRest⟩)
                  | _ => (Outcome.ret noReply (some GoErr.secondNotText), ⟨2, gs, fr0 :: frRest⟩)

/-- Chat, first-part variant (third revision of gemini.go): the emptiness
check short-circuits before indexing, only the first content part is
consulted, the FunctionResponse is correctly named, an unregistered tool
name hits the function-call default branch, and any other part kind hits
the outer default branch which returns the empty string with a nil
error. -/
def chatFirst (env : Env) : Outcome × Trace :=
  match env.resp1 with
  | Except.error e => (Outcome.ret noReply (some (GoErr.firstCallFail e)), ⟨1, [], []⟩)
  | Except.ok cands =>
    match cands with
    | [] => (Outcome.ret noReply (some GoErr.emptyResponse), ⟨1, [], []⟩)
    | parts :: _ =>
      match parts with
      | [] => (Outcome.ret noReply (some GoErr.emptyResponse), ⟨1, [], []⟩)
      | p0 :: _ =>
        match p0 with
        | GPart.text s => (Outcome.ret s none, ⟨1, [], []⟩)
        | GPart.functionCall name args =>
          if name = toolName then
            match fetchWebsiteContentFunc env.fetch args with
            | (Except.error e, gs) => (Outcome.ret noReply (some e), ⟨1, gs, []⟩)
            | (Except.ok data, gs) =>
              match env.resp2 with
              | Except.error e =>
                (Outcome.ret noReply (some (GoErr.secondCallFail e)),
                  ⟨2, gs, [GPart.functionResponse toolName data]⟩)
              | Except.ok cands2 =>
                match cands2 with
                | [] => (Outcome.goPanic, ⟨2, gs, [GPart.functionResponse toolName data]⟩)
                | parts2 :: _ =>
                  match parts2 with
                  | [] => (Outcome.goPanic, ⟨2, gs, [GPart.functionResponse toolName data]⟩)
                  | p2 :: _ =>
                    match p2 with
                    | GPart.text t => (Outcome.ret t none, ⟨2, gs, [GPart.functionResponse toolName data]⟩)
                    | _ =>
                      (Outcome.ret noReply (some GoErr.secondNotText),
                        ⟨2, gs, [GPart.functionResponse toolName data]⟩)
          else (Outcome.ret noReply (some (GoErr.unknownTool name)), ⟨1, [], []⟩)
        | _ => (Outcome.ret noReply none, ⟨1, [], []⟩)

/-- One attempt of the regex engine to match the pattern of mentionPtn
(the literal characters lt, at, then one or more digits, then gt) at the
current position. Since no digit equals the closing character, the greedy
match of the digit class is the unique possible match, so this function
is the exact match semantics of the Go pattern at a position: it returns
the remainder of the input after the match, or none. -/
def headMatch (s : List Char) : Option (List Char) :=
  match s with
  | c1 :: c2 :: rest =>
    if c1 = '<' ∧ c2 = '@' ∧ rest.takeWhile Char.isDigit ≠ [] ∧
        (rest.dropWhile Char.isDigit).head? = some '>' then
      some (rest.dropWhile Char.isDigit).tail
    else none
  | _ => none

/-- mentionPtn.ReplaceAllString(content, "") from the Go source: scan the
text left to right; at each position remove the (unique) pattern match if
one starts there and continue after it, otherwise keep the character and
advance by one. -/
def stripMentions : List Char → List Char
  | [] => []
  | c :: rest =>
    match h : headMatch (c :: rest) with
    | some r => stripMentions r
    | none => c :: stripMentions rest
termination_by s => s.length
decreasing_by
  · cases rest with
    | nil => simp [headMatch] at h
    | cons c2 rest2 =>
      simp only [headMatch] at h
      split at h
      · simp only [Option.some.injEq] at h
        subst h
        have h1 : (List.dropWhile Char.isDigit rest2).tail.length ≤
            (List.dropWhile Char.isDigit rest2).length := by
          cases List.dropWhile Char.isDigit rest2 <;> simp
        have h2 : (List.dropWhile Char.isDigit rest2).length ≤ rest2.length :=
          (List.dropWhile_sublist Char.isDigit).length_le
        simp only [List.length_cons]
        omega
      · exact absurd h (by simp)
  · simp

/-- Result of one run of MessageCreateHandler: the reply sent to the
channel (none when nothing was sent), the trace of the Chat call, and
the prompt handed to Chat (none when the handler skipped). -/
structure HandlerOut where
  sent : Option String
  trace : Trace
  promptUsed : Option (List Char)
deriving DecidableEq

/-- MessageCreateHandler: if the bot's identity is not among the mentioned
identities, return immediately; otherwise strip mention markup, call Chat
on the cleaned prompt and send the returned reply string (which is sent
even when Chat also returned an error). A panic inside Chat aborts the
handler before any send. -/
def messageCreateHandler (chatf : List Char → Outcome × Trace)
    (botID : String) (mentions : List String) (content : List Char) : HandlerOut :=
  if mentions.contains botID then
    match chatf (stripMentions content) with
    | (Outcome.ret s _, tr) => ⟨some s, tr, some (stripMentions content)⟩
    | (Outcome.goPanic, tr) => ⟨none, tr, some (stripMentions content)⟩
  else ⟨none, ⟨0, [], []⟩, none⟩

/-- Specification-side predicate: m is exactly one mention marker, the
character lt, then at, then one or more digits, then gt (the spec's
mention-markup pattern). -/
def IsMention (m : List Char) : Prop :=
  ∃ ds : List Char, ds ≠ [] ∧ (∀ c ∈ ds, c.isDigit = true) ∧
    m = '<' :: '@' :: (ds ++ ['>'])

/-- Executable version of IsMention. -/
def isMentionB (m : List Char) : Bool :=
  match m with
  | c1 :: c2 :: rest =>
    decide (c1 = '<') && decide (c2 = '@') &&
      decide (rest.takeWhile Char.isDigit ≠ []) &&
      decide (rest.dropWhile Char.isDigit = ['>'])
  | _ => false

/-- Specification-side predicate: position k of s lies inside some
substring of s that matches the mention pattern. -/
def CoveredP (s : List Char) (k : Nat) : Prop :=
  ∃ pre m post : List Char, IsMention m ∧ s = pre ++ m ++ post ∧
    pre.length ≤ k ∧ k < pre.length + m.length

/-- Executable version of CoveredP, searching over all substring
boundaries. -/
def coveredB (s : List Char) (k : Nat) : Bool :=
  (List.range (s.length + 1)).any fun i =>
    (List.range (s.length + 1)).any fun j =>
      decide (i ≤ k) && decide (k < j) && isMentionB ((s.drop i).take (j - i))

/-- The spec's description of the cleaned prompt: the original text with
every substring matching the mention pattern removed and all other
characters preserved in their original order, i.e. exactly the characters
whose position is not covered by any mention-pattern match. -/
def specClean (s : List Char) : List Char :=
  (List.range s.length).filterMap fun k => if coveredB s k then none else s[k]?

/-- Concrete strings used in the concrete test scenarios. -/
def exUrl : String := "http://example.test"

def pageS : String := "PAGE"

def doneS : String := "done"

def helloS : String := "hello"

def aS : String := "a"

def doStuffS : String := "doStuff"

def noFetchMsg : String := "no fetch"

/-- A fetcher that always fails; used where no fetch is expected. -/
def failFetch : String → Except String String := fun _ => Except.error noFetchMsg

/-- A fetcher serving PAGE at the example URL. -/
def exFetch : String → Except String String :=
  fun u => if u = exUrl then Except.ok pageS else Except.error noFetchMsg

/-- First response has zero candidates. -/
def envNoCand : Env := ⟨Except.ok [], Except.ok [], failFetch⟩

/-- First response has one candidate with zero parts. -/
def envNoParts : Env := ⟨Except.ok [[]], Except.ok [], failFetch⟩

/-- First response is a single text part hello. -/
def envText : Env := ⟨Except.ok [[GPart.text helloS]], Except.ok [], failFetch⟩

/-- First response is a single function call naming an unregistered tool. -/
def envUnknown : Env := ⟨Except.ok [[GPart.functionCall doStuffS []]], Except.ok [], failFetch⟩

/-- First response is a single fetchWebsiteContent call, fetch succeeds,
second response is the text done. -/
def envTool : Env :=
  ⟨Except.ok [[GPart.functionCall toolName [(urlKey, GoVal.str exUrl)]]],
    Except.ok [[GPart.text doneS]], exFetch⟩

/-- First response is a text part followed by a fetchWebsiteContent call;
fetch would succeed and the second response would be the text done. -/
def envTextThenTool : Env :=
  ⟨Except.ok [[GPart.text aS, GPart.functionCall toolName [(urlKey, GoVal.str exUrl)]]],
    Except.ok [[GPart.text doneS]], exFetch⟩

/-- First response is a single non-text, non-function-call part. -/
def envBlob : Env := ⟨Except.ok [[GPart.blob]], Except.ok [], failFetch⟩

/-- Tool-call path with a second response that has zero candidates. -/
def envSecondEmpty : Env :=
  ⟨Except.ok [[GPart.functionCall toolName [(urlKey, GoVal.str exUrl)]]],
    Except.ok [], exFetch⟩

/-- Identity of the bot in the handler scenarios. -/
def botIdS : String := "B"

/-- Identity of some other mentioned user. -/
def otherIdS : String := "X"

/-- A concrete message text for the handler scenarios. -/
def msgContent : List Char := ['h', 'i']

/-! Helper lemmas about the mention scanner and the spec-side cleaner. -/

theorem strip_nil : stripMentions [] = [] := by simp [stripMentions]

theorem strip_cons_some (c : Char) (rest r : List Char)
    (h : headMatch (c :: rest) = some r) :
    stripMentions (c :: rest) = stripMentions r := by
  rw [stripMentions]
  split
  · rename_i r2 h2
    rw [h] at h2
    cases h2
    rfl
  · rename_i h2
    rw [h2] at h
    cases h

theorem strip_cons_none (c : Char) (rest : List Char)
    (h : headMatch (c :: rest) = none) :
    stripMentions (c :: rest) = c :: stripMentions rest := by
  rw [stripMentions]
  split
  · rename_i r2 h2
    rw [h2] at h
    cases h
  · rfl

theorem headMatch_shorter (s r : List Char) (h : headMatch s = some r) :
    r.length < s.length := by
  match s with
  | [] => simp [headMatch] at h
  | [c] => simp [headMatch] at h
  | c1 :: c2 :: rest =>
    simp only [headMatch] at h
    split at h
    · simp only [Option.some.injEq] at h
      subst h
      have h1 : (List.dropWhile Char.isDigit rest).tail.length ≤
          (List.dropWhile Char.isDigit rest).length := by
        cases List.dropWhile Char.isDigit rest <;> simp
      have h2 : (List.dropWhile Char.isDigit rest).length ≤ rest.length :=
        (List.dropWhile_sublist Char.isDigit).length_le
      simp only [List.length_cons]
      omega
    · exact absurd h (by simp)

theorem digit_ne_lt (c : Char) (h : c.isDigit = true) : c ≠ '<' := by
  intro hc
  subst hc
  exact absurd h (by decide)

theorem digit_ne_gt (c : Char) (h : c.isDigit = true) : c ≠ '>' := by
  intro hc
  subst hc
  exact absurd h (by decide)

theorem takeWhile_digits_append (ds t : List Char)
    (h : ∀ c ∈ ds, c.isDigit = true) :
    (ds ++ '>' :: t).takeWhile Char.isDigit = ds := by
  induction ds with
  | nil =>
    have hgt : Char.isDigit '>' = false := by decide
    simp [List.takeWhile_cons, hgt]
  | cons d ds ih =>
    have hd : d.isDigit = true := h d (List.mem_cons_self d ds)
    simp only [List.cons_append, List.takeWhile_cons, hd, if_true]
    rw [ih fun c hc => h c (List.mem_cons_of_mem d hc)]

theorem dropWhile_digits_append (ds t : List Char)
    (h : ∀ c ∈ ds, c.isDigit = true) :
    (ds ++ '>' :: t).dropWhile Char.isDigit = '>' :: t := by
  induction ds with
  | nil =>
    have hgt : Char.isDigit '>' = false := by decide
    simp [List.dropWhile_cons, hgt]
  | cons d ds ih =>
    have hd : d.isDigit = true := h d (List.mem_cons_self d ds)
    simp only [List.cons_append, List.dropWhile_cons, hd, if_true]
    exact ih fun c hc => h c (List.mem_cons_of_mem d hc)

theorem isMentionB_iff (m : List Char) : isMentionB m = true ↔ IsMention m := by
  match m with
  | [] =>
    simp only [isMentionB, IsMention]
    constructor
    · intro h; cases h
    · rintro ⟨ds, -, -, h⟩; cases h
  | [c] =>
    simp only [isMentionB, IsMention]
    constructor
    · intro h; cases h
    · rintro ⟨ds, -, -, h⟩; cases h
  | c1 :: c2 :: rest =>
    simp only [isMentionB, Bool.and_eq_true, decide_eq_true_eq]
    constructor
    · rintro ⟨⟨⟨h1, h2⟩, h3⟩, h4⟩
      subst h1; subst h2
      refine ⟨rest.takeWhile Char.isDigit, h3, ?_, ?_⟩
      · intro c hc
        exact List.mem_takeWhile_imp hc
      · have := List.takeWhile_append_dropWhile Char.isDigit rest
        rw [h4] at this
        rw [this]
    · rintro ⟨ds, hne, hdig, heq⟩
      obtain ⟨h1, h2, h3⟩ : c1 = '<' ∧ c2 = '@' ∧ rest = ds ++ ['>'] := by
        injection heq with e1 rest1
        injection rest1 with e2 e3
        exact ⟨e1, e2, e3⟩
      subst h1; subst h2; subst h3
      have htw : (ds ++ ['>']).takeWhile Char.isDigit = ds :=
        takeWhile_digits_append ds [] hdig
      have hdw : (ds ++ ['>']).dropWhile Char.isDigit = ['>'] :=
        dropWhile_digits_append ds [] hdig
      rw [htw, hdw]
      exact ⟨⟨⟨rfl, rfl⟩, hne⟩, rfl⟩

theorem headMatch_some_iff (s r : List Char) :
    headMatch s = some r ↔ ∃ m, IsMention m ∧ s = m ++ r := by
  match s with
  | [] =>
    simp only [headMatch]
    constructor
    · intro h; cases h
    · rintro ⟨m, ⟨ds, -, -, hm⟩, hs⟩
      subst hm
      cases hs
  | [c] =>
    simp only [headMatch]
    constructor
    · intro h; cases h
    · rintro ⟨m, ⟨ds, -, -, hm⟩, hs⟩
      subst hm
      simp at hs
  | c1 :: c2 :: rest =>
    simp only [headMatch]
    constructor
    · intro h
      split at h
      · rename_i hcond
        obtain ⟨h1, h2, h3, h4⟩ := hcond
        simp only [Option.some.injEq] at h
        subst h1; subst h2
        have hdw : rest.dropWhile Char.isDigit =
            '>' :: (rest.dropWhile Char.isDigit).tail := by
          cases hd : rest.dropWhile Char.isDigit with
          | nil => rw [hd] at h4; cases h4
          | cons a l =>
            rw [hd] at h4
            simp only [List.head?_cons, Option.some.injEq] at h4
            subst h4
            rfl
        refine ⟨'<' :: '@' :: (rest.takeWhile Char.isDigit ++ ['>']),
          ⟨rest.takeWhile Char.isDigit, h3, fun c hc => List.mem_takeWhile_imp hc, rfl⟩, ?_⟩
        subst h
        have := List.takeWhile_append_dropWhile Char.isDigit rest
        conv_lhs => rw [← this, hdw]
        simp
      · cases h
    · rintro ⟨m, ⟨ds, hne, hdig, hm⟩, hs⟩
      subst hm
      have hs' : c1 = '<' ∧ c2 = '@' ∧ rest = ds ++ '>' :: r := by
        simp only [List.cons_append, List.append_assoc, List.singleton_append] at hs
        injection hs with e1 rest1
        injection rest1 with e2 e3
        exact ⟨e1, e2, e3⟩
      obtain ⟨h1, h2, h3⟩ := hs'
      subst h1; subst h2; subst h3
      have htw := takeWhile_digits_append ds r hdig
      have hdw := dropWhile_digits_append ds r hdig
      rw [if_pos ⟨rfl, rfl, by rw [htw]; exact hne, by rw [hdw]; rfl⟩]
      rw [hdw]
      rfl

theorem headMatch_none_iff (s : List Char) :
    headMatch s = none ↔ ∀ m r, IsMention m → s ≠ m ++ r := by
  constructor
  · intro h m r hm hs
    have : headMatch s = some r := (headMatch_some_iff s r).2 ⟨m, hm, hs⟩
    rw [h] at this
    cases this
  · intro h
    cases hh : headMatch s with
    | none => rfl
    | some r =>
      obtain ⟨m, hm, hs⟩ := (headMatch_some_iff s r).1 hh
      exact absurd hs (h m r hm)

theorem digitsGt_inj (a : List Char) (ha : ∀ c ∈ a, c.isDigit = true) :
    ∀ b t u : List Char, (∀ c ∈ b, c.isDigit = true) →
      a ++ '>' :: t = b ++ '>' :: u → a = b ∧ t = u := by
  induction a with
  | nil =>
    intro b t u hb h
    cases b with
    | nil =>
      simp only [List.nil_append] at h
      injection h with _ e
      exact ⟨rfl, e⟩
    | cons d b' =>
      simp only [List.nil_append, List.cons_append] at h
      injection h with e1 _
      exact absurd e1.symm (digit_ne_gt d (hb d (List.mem_cons_self d b')))
  | cons d a' ih =>
    intro b t u hb h
    cases b with
    | nil =>
      simp only [List.nil_append, List.cons_append] at h
      injection h with e1 _
      exact absurd e1 (digit_ne_gt d (ha d (List.mem_cons_self d a')))
    | cons e b' =>
      simp only [List.cons_append] at h
      injection h with e1 e2
      subst e1
      obtain ⟨hab, htu⟩ := ih (fun c hc => ha c (List.mem_cons_of_mem d hc)) b' t u
        (fun c hc => hb c (List.mem_cons_of_mem d hc)) e2
      exact ⟨by rw [hab], htu⟩

theorem mention_unique (m m' r r' : List Char) (hm : IsMention m)
    (hm' : IsMention m') (h : m ++ r = m' ++ r') : m = m' ∧ r = r' := by
  obtain ⟨ds, hne, hdig, hmeq⟩ := hm
  obtain ⟨ds', hne', hdig', hmeq'⟩ := hm'
  subst hmeq; subst hmeq'
  have h2 : ds ++ '>' :: r = ds' ++ '>' :: r' := by
    simp only [List.cons_append, List.append_assoc, List.singleton_append,
      List.cons.injEq, true_and] at h
    exact h
  obtain ⟨hab, htu⟩ := digitsGt_inj ds hdig ds' r r' hdig' h2
  subst hab
  exact ⟨rfl, htu⟩

theorem mention_ne_nil (m : List Char) (hm : IsMention m) : m ≠ [] := by
  obtain ⟨ds, -, -, hmeq⟩ := hm
  subst hmeq
  simp

theorem mention_head_lt (m : List Char) (hm : IsMention m) :
    ∃ t, m = '<' :: t ∧ ∀ c ∈ t, c ≠ '<' := by
  obtain ⟨ds, -, hdig, hmeq⟩ := hm
  subst hmeq
  refine ⟨'@' :: (ds ++ ['>']), rfl, ?_⟩
  intro c hc
  rcases List.mem_cons.1 hc with h | h
  · subst h; decide
  · rcases List.mem_append.1 h with h | h
    · exact digit_ne_lt c (hdig c h)
    · rcases List.mem_singleton.1 h with h
      subst h; decide

theorem coveredB_iff (s : List Char) (k : Nat) :
    coveredB s k = true ↔ CoveredP s k := by
  constructor
  · intro h
    simp only [coveredB, List.any_eq_true, List.mem_range, Bool.and_eq_true,
      decide_eq_true_eq] at h
    obtain ⟨i, hi, j, hj, ⟨hik, hkj⟩, hmen⟩ := h
    have hIs : IsMention ((s.drop i).take (j - i)) := (isMentionB_iff _).1 hmen
    refine ⟨s.take i, (s.drop i).take (j - i), (s.drop i).drop (j - i), hIs, ?_, ?_, ?_⟩
    · rw [List.append_assoc, List.take_append_drop, List.take_append_drop]
    · have : (s.take i).length = i := by
        rw [List.length_take]
        omega
      omega
    · have h1 : (s.take i).length = i := by
        rw [List.length_take]
        omega
      have h2 : ((s.drop i).take (j - i)).length = j - i := by
        rw [List.length_take, List.length_drop]
        omega
      omega
  · rintro ⟨pre, m, post, hm, hs, h1, h2⟩
    simp only [coveredB, List.any_eq_true, List.mem_range, Bool.and_eq_true,
      decide_eq_true_eq]
    refine ⟨pre.length, ?_, pre.length + m.length, ?_, ⟨h1, h2⟩, ?_⟩
    · have : s.length = pre.length + m.length + post.length := by
        rw [hs]
        simp [List.length_append]
        omega
      omega
    · have : s.length = pre.length + m.length + post.length := by
        rw [hs]
        simp [List.length_append]
        omega
      omega
    · have hdrop : s.drop pre.length = m ++ post := by
        rw [hs, List.append_assoc, List.drop_left]
      rw [hdrop]
      have htake : (m ++ post).take (pre.length + m.length - pre.length) = m := by
        have : pre.length + m.length - pre.length = m.length := by omega
        rw [this, List.take_left]
      rw [htake]
      exact (isMentionB_iff m).2 hm

theorem coveredP_cons_of (c : Char) (s : List Char) (k : Nat)
    (h : CoveredP s k) : CoveredP (c :: s) (k + 1) := by
  obtain ⟨pre, m, post, hm, hs, h1, h2⟩ := h
  exact ⟨c :: pre, m, post, hm, by rw [hs]; simp, by simp; omega,
    by simp; omega⟩

theorem coveredP_cons_inv (c : Char) (s : List Char) (k : Nat)
    (hnm : headMatch (c :: s) = none) (h : CoveredP (c :: s) (k + 1)) :
    CoveredP s k := by
  obtain ⟨pre, m, post, hm, hs, h1, h2⟩ := h
  cases pre with
  | nil =>
    simp only [List.nil_append] at hs
    exact absurd hs ((headMatch_none_iff (c :: s)).1 hnm m post hm)
  | cons p pre' =>
    simp only [List.cons_append, List.cons.injEq] at hs
    obtain ⟨hcp, hs'⟩ := hs
    refine ⟨pre', m, post, hm, hs', ?_, ?_⟩
    · simp only [List.length_cons] at h1
      omega
    · simp only [List.length_cons] at h2
      omega

theorem coveredP_zero_not (c : Char) (s : List Char)
    (hnm : headMatch (c :: s) = none) : ¬ CoveredP (c :: s) 0 := by
  rintro ⟨pre, m, post, hm, hs, h1, h2⟩
  have hpre : pre = [] := List.length_eq_zero.1 (by omega)
  subst hpre
  simp only [List.nil_append] at hs
  exact (headMatch_none_iff (c :: s)).1 hnm m post hm hs

theorem coveredP_append_left (m r : List Char) (hm : IsMention m) (k : Nat)
    (hk : k < m.length) : CoveredP (m ++ r) k :=
  ⟨[], m, r, hm, by simp, by simp, by simpa using hk⟩

theorem mention_pos_lt (m : List Char) (hm : IsMention m) (i : Nat) (c : Char)
    (h : m[i]? = some c) (hc : c = '<') : i = 0 := by
  obtain ⟨t, hmeq, ht⟩ := mention_head_lt m hm
  subst hmeq
  cases i with
  | zero => rfl
  | succ i =>
    rw [List.getElem?_cons_succ] at h
    have : c ∈ t := by
      cases ht2 : t[i]? with
      | none => rw [ht2] at h; cases h
      | some a =>
        rw [ht2] at h
        cases h
        exact List.getElem?_mem ht2
    exact absurd hc (ht c this)

theorem coveredP_append_shift (m r : List Char) (hm : IsMention m) (k : Nat) :
    CoveredP (m ++ r) (m.length + k) ↔ CoveredP r k := by
  constructor
  · rintro ⟨pre, m', post, hm', hs, h1, h2⟩
    by_cases hlen : m.length ≤ pre.length
    · have hpre : pre = m ++ r.take (pre.length - m.length) := by
        have h3 : ((pre ++ m') ++ post).take pre.length = pre := by
          rw [List.append_assoc, List.take_left]
        have h4 : (m ++ r).take pre.length = m ++ r.take (pre.length - m.length) := by
          rw [List.take_append_eq_append_take, List.take_of_length_le hlen]
        rw [← h4, hs, h3]
      have hr : r = r.take (pre.length - m.length) ++ m' ++ post := by
        have h5 : m ++ r = m ++ (r.take (pre.length - m.length) ++ m' ++ post) := by
          rw [hs, hpre]
          simp [List.append_assoc]
        exact List.append_cancel_left h5
      have hplen : pre.length = m.length + (r.take (pre.length - m.length)).length := by
        have := congrArg List.length hpre
        rwa [List.length_append] at this
      refine ⟨r.take (pre.length - m.length), m', post, hm', hr, ?_, ?_⟩
      · omega
      · omega
    · push_neg at hlen
      obtain ⟨t', hm'eq, -⟩ := mention_head_lt m' hm'
      have hget : (m ++ r)[pre.length]? = some '<' := by
        rw [hs, List.append_assoc, List.getElem?_append_right (Nat.le_refl pre.length)]
        simp [hm'eq]
      rw [List.getElem?_append_left hlen] at hget
      have hz : pre.length = 0 := mention_pos_lt m hm pre.length '<' hget rfl
      have hpre : pre = [] := List.length_eq_zero.1 hz
      subst hpre
      simp only [List.nil_append] at hs
      obtain ⟨hmm, hrp⟩ := mention_unique m m' r post hm hm' hs
      subst hmm
      exfalso
      simp only [List.length_nil] at h2
      omega
  · rintro ⟨pre, m', post, hm', hr, h1, h2⟩
    refine ⟨m ++ pre, m', post, hm', ?_, ?_, ?_⟩
    · rw [hr]
      simp [List.append_assoc]
    · simp [List.length_append]
      omega
    · simp [List.length_append]
      omega

theorem coveredB_congr (s s' : List Char) (k k' : Nat)
    (h : CoveredP s k ↔ CoveredP s' k') : coveredB s k = coveredB s' k' := by
  by_cases hc : CoveredP s' k'
  · rw [(coveredB_iff s k).2 (h.2 hc), (coveredB_iff s' k').2 hc]
  · have h1 : coveredB s k = false := by
      cases hb : coveredB s k with
      | false => rfl
      | true => exact absurd (h.1 ((coveredB_iff s k).1 hb)) hc
    have h2 : coveredB s' k' = false := by
      cases hb : coveredB s' k' with
      | false => rfl
      | true => exact absurd ((coveredB_iff s' k').1 hb) hc
    rw [h1, h2]

theorem specClean_nil : specClean [] = [] := by simp [specClean]

theorem specClean_cons (c : Char) (s : List Char)
    (hnm : headMatch (c :: s) = none) :
    specClean (c :: s) = c :: specClean s := by
  have h0 : coveredB (c :: s) 0 = false := by
    cases hb : coveredB (c :: s) 0 with
    | false => rfl
    | true => exact absurd ((coveredB_iff _ _).1 hb) (coveredP_zero_not c s hnm)
  have hshift : ∀ k, coveredB (c :: s) (k + 1) = coveredB s k := fun k =>
    coveredB_congr _ _ _ _ ⟨coveredP_cons_inv c s k hnm, coveredP_cons_of c s k⟩
  unfold specClean
  rw [List.length_cons, List.range_succ_eq_map]
  rw [List.filterMap_cons]
  simp only [h0, Bool.false_eq_true, if_false, List.getElem?_cons_zero]
  congr 1
  rw [List.filterMap_map]
  apply List.filterMap_congr
  intro k hk
  simp only [Function.comp_apply, hshift k, List.getElem?_cons_succ]

theorem specClean_strip (m r : List Char) (hm : IsMention m) :
    specClean (m ++ r) = specClean r := by
  unfold specClean
  rw [List.length_append, List.range_add, List.filterMap_append]
  have hleft : (List.range m.length).filterMap
      (fun k => if coveredB (m ++ r) k then none else (m ++ r)[k]?) = [] := by
    rw [List.filterMap_eq_nil_iff]
    intro k hk
    have hcov : coveredB (m ++ r) k = true :=
      (coveredB_iff _ _).2 (coveredP_append_left m r hm k (List.mem_range.1 hk))
    simp [hcov]
  rw [hleft, List.nil_append, List.filterMap_map]
  apply List.filterMap_congr
  intro k hk
  have hshift : coveredB (m ++ r) (m.length + k) = coveredB r k :=
    coveredB_congr _ _ _ _ (coveredP_append_shift m r hm k)
  have hget : (m ++ r)[m.length + k]? = r[k]? := by
    rw [List.getElem?_append_right (Nat.le_add_right m.length k)]
    simp
  simp only [Function.comp_apply, hshift, hget]

/-- Claim C7: for every message text, the cleaned prompt that the message
handler passes to Chat (stripMentions, the embedding of the source's
mentionPtn.ReplaceAllString with the empty string) equals the original
text with every substring matching the mention pattern (lt, at, one or
more digits, gt) removed and all other characters preserved in their
original order, as computed position-wise by specClean. -/
theorem c7_cleaned_prompt (content : List Char) :
    stripMentions content = specClean content := by
  generalize hn : content.length = n
  induction n using Nat.strong_induction_on generalizing content with
  | _ n IH =>
    cases content with
    | nil => rw [strip_nil, specClean_nil]
    | cons c rest =>
      cases hm : headMatch (c :: rest) with
      | some r =>
        obtain ⟨m, hmen, heq⟩ := (headMatch_some_iff (c :: rest) r).1 hm
        rw [strip_cons_some c rest r hm, heq, specClean_strip m r hmen]
        have hlt : r.length < n := by
          have := headMatch_shorter (c :: rest) r hm
          omega
        exact IH r.length hlt r rfl
      | none =>
        rw [strip_cons_none c rest hm, specClean_cons c rest hm]
        have hlt : rest.length < n := by
          simp only [List.length_cons] at hn
          omega
        rw [IH rest.length hlt rest rfl]

/-! Helper lemmas about handleFunctionCalls. -/

theorem runCalls_no_tool (fetch : String → Except String String) (l : List GPart)
    (h : ∀ args, GPart.functionCall toolName args ∉ l) :
    runCalls fetch l = (Except.ok [], []) := by
  induction l with
  | nil => rfl
  | cons p rest ih =>
    have hrest : ∀ args, GPart.functionCall toolName args ∉ rest := fun args hm =>
      h args (List.mem_cons_of_mem p hm)
    cases p with
    | functionCall name args =>
      by_cases hn : name = toolName
      · subst hn
        exact absurd (List.mem_cons_self _ _) (h args)
      · simp [runCalls, hn, ih hrest]
    | text s => simp [runCalls, ih hrest]
    | functionResponse n c => simp [runCalls, ih hrest]
    | blob => simp [runCalls, ih hrest]

/-- Claim C1 (code bug in the accumulating variants): a first-turn
response with one candidate and zero parts yields the empty-response
error in every variant, and a response with zero candidates yields it in
the first-part variant; but the accumulating variants index
resp.Candidates[0] before their emptiness check, so a response with zero
candidates panics instead of returning the error. -/
theorem c1_empty_response_behavior :
    chatFirst envNoCand = (Outcome.ret noReply (some GoErr.emptyResponse), ⟨1, [], []⟩) ∧
    chatFirst envNoParts = (Outcome.ret noReply (some GoErr.emptyResponse), ⟨1, [], []⟩) ∧
    chatAcc envNoParts = (Outcome.ret noReply (some GoErr.emptyResponse), ⟨1, [], []⟩) ∧
    chatAcc envNoCand = (Outcome.goPanic, ⟨1, [], []⟩) :=
  ⟨rfl, rfl, rfl, rfl⟩

/-- Claim C2: in the first-part variant, when the consulted (first) part
of the first response is a function call whose name is not
fetchWebsiteContent, Chat fails with the unknown-tool error and performs
zero HTTP fetches. -/
theorem c2_unknown_tool (env : Env) (name : String) (args : List (String × GoVal))
    (ps : List GPart) (cs : List (List GPart))
    (h1 : env.resp1 = Except.ok ((GPart.functionCall name args :: ps) :: cs))
    (h2 : name ≠ toolName) :
    chatFirst env = (Outcome.ret noReply (some (GoErr.unknownTool name)), ⟨1, [], []⟩) := by
  simp [chatFirst, h1, h2]

theorem c2_unknown_tool_witness :
    envUnknown.resp1 = Except.ok [[GPart.functionCall doStuffS []]] ∧
    chatFirst envUnknown =
      (Outcome.ret noReply (some (GoErr.unknownTool doStuffS)), ⟨1, [], []⟩) :=
  ⟨rfl, c2_unknown_tool envUnknown doStuffS [] [] [] rfl (by decide)⟩

/-- Claim C3 (code bug in the accumulating variants): on a successful
tool invocation the first-part variant wraps the fetched content in a
function response named exactly like the requested tool,
fetchWebsiteContent, but the accumulating variants use the misspelled
name fetchWebisiteContent, which differs from the tool's name. -/
theorem c3_function_response_name :
    (chatFirst envTool).2.secondSent = [GPart.functionResponse toolName pageS] ∧
    (chatAcc envTool).2.secondSent = [GPart.functionResponse typoToolName pageS] ∧
    typoToolName ≠ toolName :=
  ⟨rfl, rfl, by decide⟩

/-- Claim C4: when the first response's first part is plain text and the
candidate contains no function-call part, every Chat variant returns that
text verbatim as the final reply, with exactly one model call and no
fetches. -/
theorem c4_plain_text_reply (env : Env) (s : String) (ps : List GPart)
    (cs : List (List GPart))
    (h1 : env.resp1 = Except.ok ((GPart.text s :: ps) :: cs))
    (h2 : ∀ name args, GPart.functionCall name args ∉ GPart.text s :: ps) :
    chatFirst env = (Outcome.ret s none, ⟨1, [], []⟩) ∧
    chatAcc env = (Outcome.ret s none, ⟨1, [], []⟩) := by
  constructor
  · simp [chatFirst, h1]
  · have hfil : (GPart.text s :: ps).filter isFunctionCall = [] := by
      rw [List.filter_eq_nil_iff]
      intro p hp
      cases p with
      | functionCall name args => exact absurd hp (h2 name args)
      | text t => simp [isFunctionCall]
      | functionResponse n c => simp [isFunctionCall]
      | blob => simp [isFunctionCall]
    simp [chatAcc, h1, handleFunctionCalls, hfil, runCalls]

theorem c4_plain_text_reply_witness :
    envText.resp1 = Except.ok [[GPart.text helloS]] ∧
    chatFirst envText = (Outcome.ret helloS none, ⟨1, [], []⟩) ∧
    chatAcc envText = (Outcome.ret helloS none, ⟨1, [], []⟩) := by
  have h := c4_plain_text_reply envText helloS [] [] rfl
    (by intro name args hmem; simp at hmem)
  exact ⟨rfl, h.1, h.2⟩

/-- Claim C5 counterexample: the claim quantifies over every first-turn
response containing a fetchWebsiteContent call with a string url; in the
first-part variant a response whose first part is text and whose second
part is such a call satisfies every premise of the claim (the call is
contained, the fetch would succeed, the second response's first part is
text), yet Chat returns the first-turn text, performs zero fetches and
issues only one model call. -/
theorem c5_counterexample :
    GPart.functionCall toolName [(urlKey, GoVal.str exUrl)] ∈
      [GPart.text aS, GPart.functionCall toolName [(urlKey, GoVal.str exUrl)]] ∧
    envTextThenTool.resp1 = Except.ok
      [[GPart.text aS, GPart.functionCall toolName [(urlKey, GoVal.str exUrl)]]] ∧
    envTextThenTool.fetch exUrl = Except.ok pageS ∧
    envTextThenTool.resp2 = Except.ok [[GPart.text doneS]] ∧
    chatFirst envTextThenTool = (Outcome.ret aS none, ⟨1, [], []⟩) ∧
    aS ≠ doneS :=
  ⟨by simp, rfl, rfl, rfl, rfl, by decide⟩

/-- Claim C5 as amended: when the first response's first candidate
consists of a single function-call part naming fetchWebsiteContent with a
string url argument, the fetch succeeds and the second response's first
part is text, every Chat variant returns that second-turn text, issues
exactly one HTTP GET to that url and exactly two model calls. -/
theorem c5_single_tool_call (env : Env) (args : List (String × GoVal))
    (u body t : String) (cs : List (List GPart)) (ps2 : List GPart)
    (cs2 : List (List GPart))
    (h1 : env.resp1 = Except.ok ([GPart.functionCall toolName args] :: cs))
    (h2 : List.lookup urlKey args = some (GoVal.str u))
    (h3 : env.fetch u = Except.ok body)
    (h4 : env.resp2 = Except.ok ((GPart.text t :: ps2) :: cs2)) :
    chatFirst env = (Outcome.ret t none,
      ⟨2, [u], [GPart.functionResponse toolName body]⟩) ∧
    chatAcc env = (Outcome.ret t none,
      ⟨2, [u], [GPart.functionResponse typoToolName body]⟩) := by
  constructor
  · simp [chatFirst, h1, fetchWebsiteContentFunc, h2, h3, h4]
  · simp [chatAcc, h1, handleFunctionCalls, isFunctionCall, runCalls,
      fetchWebsiteContentFunc, h2, h3, h4]

theorem c5_single_tool_call_witness :
    envTool.resp1 = Except.ok [[GPart.functionCall toolName [(urlKey, GoVal.str exUrl)]]] ∧
    chatFirst envTool = (Outcome.ret doneS none,
      ⟨2, [exUrl], [GPart.functionResponse toolName pageS]⟩) ∧
    chatAcc envTool = (Outcome.ret doneS none,
      ⟨2, [exUrl], [GPart.functionResponse typoToolName pageS]⟩) := by
  have h := c5_single_tool_call envTool [(urlKey, GoVal.str exUrl)] exUrl pageS doneS
    [] [] [] rfl rfl rfl rfl
  exact ⟨rfl, h.1, h.2⟩

/-- Claim C6: when the bot's identity is not among the mentioned
identities, the handler skips: Chat is never invoked (so zero model
calls and zero fetches) and no reply is sent. -/
theorem c6_skip_unaddressed (chatf : List Char → Outcome × Trace) (botID : String)
    (mentions : List String) (content : List Char)
    (h : mentions.contains botID = false) :
    messageCreateHandler chatf botID mentions content = ⟨none, ⟨0, [], []⟩, none⟩ := by
  unfold messageCreateHandler
  rw [h]
  rfl

theorem c6_skip_unaddressed_witness :
    ([otherIdS] : List String).contains botIdS = false ∧
    messageCreateHandler (fun _ => chatFirst envText) botIdS [otherIdS] msgContent =
      ⟨none, ⟨0, [], []⟩, none⟩ :=
  ⟨by decide, c6_skip_unaddressed (fun _ => chatFirst envText) botIdS [otherIdS]
    msgContent (by decide)⟩

/-- Claim C8: when the argument map of a fetchWebsiteContent invocation
has no url key, or its url value is not a string, the tool function fails
with the argument-type error and performs no HTTP GET. -/
theorem c8_argument_type (fetch : String → Except String String)
    (args : List (String × GoVal))
    (h : ∀ s, List.lookup urlKey args ≠ some (GoVal.str s)) :
    fetchWebsiteContentFunc fetch args = (Except.error GoErr.argumentType, []) := by
  unfold fetchWebsiteContentFunc
  cases hl : List.lookup urlKey args with
  | none => rfl
  | some v =>
    cases v with
    | str s => exact absurd hl (h s)
    | nonString => rfl

theorem c8_argument_type_witness :
    (∀ s, List.lookup urlKey ([] : List (String × GoVal)) ≠ some (GoVal.str s)) ∧
    fetchWebsiteContentFunc failFetch [] = (Except.error GoErr.argumentType, []) :=
  ⟨fun s h => by simp [List.lookup] at h,
    c8_argument_type failFetch [] (fun s h => by simp [List.lookup] at h)⟩

/-- Claim C9: when the first response's candidate contains no
fetchWebsiteContent call and its first part is not plain text, the
accumulating variants return the empty string with a nil error — in
particular when that first part is a function call naming an
unregistered tool; the first-part variant does the same whenever the
first part is additionally not a function call of any name. An empty
success, not an error value. -/
theorem c9_empty_success (env : Env) (p0 : GPart) (ps : List GPart)
    (cs : List (List GPart))
    (h1 : env.resp1 = Except.ok ((p0 :: ps) :: cs))
    (h2 : ∀ args, GPart.functionCall toolName args ∉ p0 :: ps)
    (h3 : ∀ s, p0 ≠ GPart.text s) :
    chatAcc env = (Outcome.ret noReply none, ⟨1, [], []⟩) ∧
    ((∀ name args, p0 ≠ GPart.functionCall name args) →
      chatFirst env = (Outcome.ret noReply none, ⟨1, [], []⟩)) := by
  have hrun : runCalls env.fetch ((p0 :: ps).filter isFunctionCall) = (Except.ok [], []) := by
    apply runCalls_no_tool
    intro args hm
    exact absurd (List.mem_filter.1 hm).1 (h2 args)
  constructor
  · cases p0 with
    | text s => exact absurd rfl (h3 s)
    | functionCall name args =>
      simp [chatAcc, h1, handleFunctionCalls, hrun]
    | functionResponse n c =>
      simp [chatAcc, h1, handleFunctionCalls, hrun]
    | blob =>
      simp [chatAcc, h1, handleFunctionCalls, hrun]
  · intro h4
    cases p0 with
    | text s => exact absurd rfl (h3 s)
    | functionCall name args => exact absurd rfl (h4 name args)
    | functionResponse n c => simp [chatFirst, h1]
    | blob => simp [chatFirst, h1]

theorem c9_empty_success_witness :
    envUnknown.resp1 = Except.ok [[GPart.functionCall doStuffS []]] ∧
    chatAcc envUnknown = (Outcome.ret noReply none, ⟨1, [], []⟩) ∧
    envBlob.resp1 = Except.ok [[GPart.blob]] ∧
    chatAcc envBlob = (Outcome.ret noReply none, ⟨1, [], []⟩) ∧
    chatFirst envBlob = (Outcome.ret noReply none, ⟨1, [], []⟩) := by
  have hU := c9_empty_success envUnknown (GPart.functionCall doStuffS []) [] [] rfl
    (by
      intro args hm
      rw [List.mem_singleton] at hm
      injection hm with e1 e2
      exact absurd e1 (by decide))
    (by intro s hs; cases hs)
  have hB := c9_empty_success envBlob GPart.blob [] [] rfl
    (by intro args hm; simp at hm)
    (by intro s hs; cases hs)
  exact ⟨rfl, hU.1, rfl, hB.1, hB.2 (by intro name args hs; cases hs)⟩

/-- Claim C10: the emptiness guard applies only to the first turn; on the
tool-call path every Chat variant reads the second response's first
candidate and its first part unconditionally, so a second response with
zero candidates, or whose first candidate has zero parts, makes Chat
panic. -/
theorem c10_second_turn_panic (env : Env) (args : List (String × GoVal))
    (u body : String) (cs : List (List GPart))
    (h1 : env.resp1 = Except.ok ([GPart.functionCall toolName args] :: cs))
    (h2 : List.lookup urlKey args = some (GoVal.str u))
    (h3 : env.fetch u = Except.ok body)
    (h4 : env.resp2 = Except.ok [] ∨ ∃ cs2, env.resp2 = Except.ok ([] :: cs2)) :
    (chatFirst env).1 = Outcome.goPanic ∧ (chatAcc env).1 = Outcome.goPanic := by
  rcases h4 with h4 | ⟨cs2, h4⟩
  · constructor
    · simp [chatFirst, h1, fetchWebsiteContentFunc, h2, h3, h4]
    · simp [chatAcc, h1, handleFunctionCalls, isFunctionCall, runCalls,
        fetchWebsiteContentFunc, h2, h3, h4]
  · constructor
    · simp [chatFirst, h1, fetchWebsiteContentFunc, h2, h3, h4]
    · simp [chatAcc, h1, handleFunctionCalls, isFunctionCall, runCalls,
        fetchWebsiteContentFunc, h2, h3, h4]

theorem c10_second_turn_panic_witness :
    envSecondEmpty.resp2 = Except.ok [] ∧
    (chatFirst envSecondEmpty).1 = Outcome.goPanic ∧
    (chatAcc envSecondEmpty).1 = Outcome.goPanic := by
  have h := c10_second_turn_panic envSecondEmpty [(urlKey, GoVal.str exUrl)]
    exUrl pageS [] rfl rfl rfl (Or.inl rfl)
  exact ⟨rfl, h.1, h.2⟩
